import Mathlib

/-!
Verification of the pyverilator signal-name decoding, width-tier marshalling,
write/evaluate hooks, VCD trace lifecycle and instance lifecycle against the
sources in `pyverilator/pyverilator.py` and `pyverilator/verilatorcpp.py`.

Signal names are modelled as `List Char`.  Python strings' `split`, `in`,
`startswith`, `endswith`, `lower` are embedded as executable list functions
with the same semantics (splitting on the leftmost non-overlapping occurrence
of a non-empty separator, keeping empty pieces).
-/

namespace PyV

/-- Python-style identifier strings, as lists of characters. -/
abbrev Name := List Char

/-- Worker for `pySplit`: scans the string a character at a time.  When
`skip` is positive the scanner is inside a separator occurrence that was
already matched and consumed logically; otherwise, if the separator is a
prefix of the remaining input the current piece is emitted and the scanner
skips the separator (leftmost, non-overlapping match, exactly as Python's
`str.split` with a non-empty separator). -/
def splitGo (sep acc : Name) (skip : Nat) : Name → List Name
  | [] => [acc.reverse]
  | c :: rest =>
    match skip with
    | k + 1 => splitGo sep acc k rest
    | 0 =>
      if sep.isPrefixOf (c :: rest) then
        acc.reverse :: splitGo sep [] (sep.length - 1) rest
      else
        splitGo sep (c :: acc) 0 rest

/-- Python `s.split(sep)` for a non-empty separator `sep`. -/
def pySplit (sep s : Name) : List Name := splitGo sep [] 0 s

/-- Python `sub in s` (substring containment). -/
def pyContains (sub : Name) : Name → Bool
  | [] => sub.isPrefixOf []
  | c :: rest => sub.isPrefixOf (c :: rest) || pyContains sub (c :: rest).tail

/-- Value of a hexadecimal digit, as accepted by Python's `int(·, 16)`. -/
def hexDigitVal? (c : Char) : Option Nat :=
  if '0' ≤ c ∧ c ≤ '9' then some (c.toNat - '0'.toNat)
  else if 'a' ≤ c ∧ c ≤ 'f' then some (c.toNat - 'a'.toNat + 10)
  else if 'A' ≤ c ∧ c ≤ 'F' then some (c.toNat - 'A'.toNat + 10)
  else none

/-- Python `int(s, 16)` on the short digit strings the decoder feeds it:
every character must be a hex digit and the string must be non-empty. -/
def pyIntHex : Name → Option Nat
  | [] => none
  | s => s.foldlM (fun acc c => (hexDigitVal? c).map (fun v => 16 * acc + v)) 0

/-- Errors raised by the Python code, by exception class (with the message
for the classes whose messages the spec distinguishes). -/
inductive PyErr where
  | valueError (msg : Name)
  | typeError (msg : Name)
  | attributeError
  | notImplementedError (msg : Name)
  deriving DecidableEq, Repr

/-- The hierarchy-separator token `__DOT__`. -/
def sepDOT : Name := '_' :: '_' :: 'D' :: 'O' :: 'T' :: '_' :: '_' :: []

/-- The escape-introducer token `__0`. -/
def sep0 : Name := '_' :: '_' :: '0' :: []

/-- The reserved array-indexing marker `__BRA__`. -/
def braMark : Name := '_' :: '_' :: 'B' :: 'R' :: 'A' :: '_' :: '_' :: []

/-- The reserved array-indexing marker `__KET__`. -/
def ketMark : Name := '_' :: '_' :: 'K' :: 'E' :: 'T' :: '_' :: '_' :: []

/-- One escaped sub-segment: Python's
`escaped_char = chr(int(split_at_escape_char[i][0:2], 16))` followed by
`escaped_char + split_at_escape_char[i][2:]`. -/
def decodeEscPiece (p : Name) : Except PyErr Name :=
  match pyIntHex (p.take 2) with
  | some n => .ok (Char.ofNat n :: p.drop 2)
  | none => .error (.valueError [])

/-- Decoding of one hierarchy segment: split on `__0`, keep the first
sub-segment verbatim, decode the two leading hex digits of each later
sub-segment (the inner loop of `verilator_name_to_standard_modular_name`). -/
def decodeSegment (seg : Name) : Except PyErr Name :=
  match pySplit sep0 seg with
  | [] => .ok []
  | first :: rest => do
    let decoded ← rest.mapM decodeEscPiece
    .ok (first ++ decoded.flatten)

/-- Embedding of `verilator_name_to_standard_modular_name` from
`pyverilator/pyverilator.py`: reject the reserved array-indexing markers,
split on `__DOT__`, drop the leading top-module segment when there was at
least one `__DOT__`, and unescape each remaining segment. -/
def verilator_name_to_standard_modular_name (verilatorName : Name) :
    Except PyErr (List Name) :=
  if pyContains braMark verilatorName || pyContains ketMark verilatorName then
    .error (.notImplementedError
      ("__BRA__ and __KET__ are not currently supported".toList))
  else
    let modularVerilatorName := pySplit sepDOT verilatorName
    let modularVerilatorName :=
      if modularVerilatorName.length > 1 then modularVerilatorName.tail
      else modularVerilatorName
    modularVerilatorName.mapM decodeSegment

/-! ### The escape grammar (re-escaping)

The repository only contains the decoder; the escaping itself is performed by
Verilator.  The decoder's docstring specifies it: illegal characters (all
non-alphanumeric characters except `_`, a leading digit, and a second `_` in
a row, of which only the second is substituted) are replaced by `__0` followed
by the two-digit capitalized hex ASCII value of the character. -/

/-- One atom of an escaped name: a character kept verbatim, or a character
replaced by an escape sequence. -/
inductive EncItem where
  | plain (c : Char)
  | esc (c : Char)
  deriving DecidableEq, Repr

/-- Upper-case hexadecimal digit for a nibble. -/
def hexDigitUpper (n : Nat) : Char :=
  if n < 10 then Char.ofNat ('0'.toNat + n) else Char.ofNat ('A'.toNat + (n - 10))

/-- High hex digit of a character's code. -/
def hexHi (c : Char) : Char := hexDigitUpper (c.toNat / 16)

/-- Low hex digit of a character's code. -/
def hexLo (c : Char) : Char := hexDigitUpper (c.toNat % 16)

/-- Rendering of one atom into the escaped string. -/
def renderItem : EncItem → Name
  | .plain c => [c]
  | .esc c => '_' :: '_' :: '0' :: hexHi c :: hexLo c :: []

/-- Rendering of an atom sequence. -/
def render (items : List EncItem) : Name := (items.map renderItem).flatten

/-- The character an atom stands for. -/
def itemChar : EncItem → Char
  | .plain c => c
  | .esc c => c

/-- Characters Verilator keeps verbatim (when not a leading digit or a
doubled underscore): alphanumeric characters and `_`. -/
def isLegalChar (c : Char) : Bool := c.isAlphanum || c == '_'

/-- Modelled from the spec: Verilator's `AstNode::encodeName`, which is
external to this repository.  Per the decoder's docstring, illegal characters
are replaced with `__0xx` (`xx` the capitalized hex ASCII value); illegal
characters are all non-alphanumeric characters except `_`, a leading digit,
and a second `_` in a row (only the second is substituted).  `first` records
whether we are at the first character, `prevU` whether the previous original
character was `_`. -/
def encodeItems (first prevU : Bool) : List Char → List EncItem
  | [] => []
  | c :: rest =>
    if !isLegalChar c || (first && c.isDigit) || (prevU && c == '_') then
      .esc c :: encodeItems false (c == '_') rest
    else
      .plain c :: encodeItems false (c == '_') rest

/-- Modelled from the spec: the escaping applied by Verilator to one
hierarchy segment (re-escaping a decoded path segment). -/
def encodeName (s : List Char) : Name := render (encodeItems true false s)

/-- Joining path segments with a separator token (re-joining a decoded
path; the spec's inverse of splitting on the separator). -/
def joinSep (sep : Name) : List Name → Name
  | [] => []
  | [x] => x
  | x :: xs => x ++ sep ++ joinSep sep xs

/-! ### Decomposition of a rendered segment into its `__0`-pieces -/

/-- The pieces Python's `split('__0')` recovers from a rendered atom
sequence: the leading plain run, then, per escape atom, a piece beginning
with the two hex digits. -/
def pieces : List EncItem → List Name
  | [] => [[]]
  | .plain c :: its => (c :: (pieces its).headD []) :: (pieces its).tail
  | .esc c :: its =>
    [] :: (hexHi c :: hexLo c :: (pieces its).headD []) :: (pieces its).tail

/-- Well-formedness of an atom sequence: no two adjacent verbatim
underscores (Verilator escapes the second of two `_` in a row). -/
def Inv (its : List EncItem) : Prop :=
  List.Chain' (fun a b => ¬(a = EncItem.plain '_' ∧ b = EncItem.plain '_')) its

/-! ### Native model storage and the width-tier marshalling

The generated wrapper stores each port as one 32-bit word per index for the
multi-word tier and a single word for the narrow tiers; the `Store` maps a
port name and a word index to the stored value. -/

/-- Storage of the loaded native model, per port and word index. -/
def Store := Name → Nat → Nat

/-- Update one word of one port. -/
def setWord (st : Store) (p : Name) (i v : Nat) : Store :=
  fun q j => if q = p ∧ j = i then v else st q j

/-- `_write_32`: call `set_NAME(model, c_uint32(value))`; the generated
`set_NAME` stores the word. -/
def write32Store (st : Store) (p : Name) (v : Nat) : Store :=
  setWord st p 0 (v % 2 ^ 32)

/-- `_write_64`: call `set_NAME(model, c_uint64(value))`. -/
def write64Store (st : Store) (p : Name) (v : Nat) : Store :=
  setWord st p 0 (v % 2 ^ 64)

/-- `_write_words`: `for i in range(num_words): fn(model, i,
c_uint32(value >> (i * 32)))`; the generated indexed `set_NAME` stores word
`i`. -/
def writeWordsStore (st : Store) (p : Name) (numWords v : Nat) : Store :=
  (List.range numWords).foldl
    (fun acc i => setWord acc p i ((v >>> (i * 32)) % 2 ^ 32)) st

/-- `_read_32`: the single getter returns the stored word. -/
def read32Store (st : Store) (p : Name) : Nat := st p 0

/-- `_read_64`: the single 64-bit getter. -/
def read64Store (st : Store) (p : Name) : Nat := st p 0

/-- `_read_words`: read each word via the indexed getter, then reassemble
with `out |= words[i] << (i * 32)`. -/
def readWordsStore (st : Store) (p : Name) (numWords : Nat) : Nat :=
  (List.range numWords).foldl (fun out i => out ||| (st p i <<< (i * 32))) 0

/-! ### Simulation facade state -/

/-- Automatic tracing mode (`self.auto_tracing_mode`). -/
inductive ATMode where
  | clock
  | eval
  deriving DecidableEq, Repr

/-- Native calls and trace operations performed by the wrapper. -/
inductive Ev where
  | setCall (port : Name)
  | evalCall
  | dump (t : Nat)
  | flush
  | startTrace (filename : Name)
  | stopTrace
  | destructCall (modelPtr : Nat)
  deriving DecidableEq, Repr

/-- The mutable attributes of a `PyVerilator` instance used by reads,
writes, eval and the VCD trace lifecycle. -/
structure PVState where
  autoEval : Bool
  vcdTrace : Option Nat
  vcdFilename : Option Name
  autoTracingMode : Option ATMode
  currTime : Nat
  clockName : Option Name
  store : Store

/-- The immutable signal descriptor lists read from the loaded artifact. -/
structure SigConfig where
  inputs : List (Name × Nat)
  outputs : List (Name × Nat)
  internals : List (Name × Nat)

/-- Python's width lookup loop: iterate the descriptor list, remembering
the width of the last entry whose name matches. -/
def lookupWidthLast (sigs : List (Name × Nat)) (port : Name) : Option Nat :=
  sigs.foldl (fun acc nw => if port = nw.1 then some nw.2 else acc) none

/-- Result of an operation that may mutate the instance, perform native
calls, and raise: the state after the operation (reflecting the mutations
made before any raise), the native calls performed, and the raised error. -/
abbrev OpResult := PVState × List Ev × Option PyErr

/-- `add_to_vcd_trace`: requires an active trace; advances the logical time
by 5 twice, dumping at each step, then flushes. -/
def add_to_vcd_trace (s : PVState) : OpResult :=
  match s.vcdTrace with
  | none => (s, [], some (.valueError
      ("add_to_vcd_trace() requires VCD tracing to be active".toList)))
  | some _ =>
    let t1 := s.currTime + 5
    let t2 := t1 + 5
    ({ s with currTime := t2 }, [.dump t1, .dump t2, .flush], none)

/-- `eval`: the native eval call, plus a trace append when auto-tracing in
`eval` mode. -/
def evalOp (s : PVState) : OpResult :=
  if s.autoTracingMode = some .eval then
    let r := add_to_vcd_trace s
    (r.1, .evalCall :: r.2.1, r.2.2)
  else
    (s, [.evalCall], none)

/-- `_post_write_hook`: evaluate when `auto_eval` is set; when auto-tracing
in `clock` mode and the written port is the bound clock, append to the
trace (reading `self.clock.verilator_name` raises when no clock is bound). -/
def post_write_hook (s : PVState) (port : Name) : OpResult :=
  let r1 := if s.autoEval then evalOp s else (s, [], none)
  match r1.2.2 with
  | some e => (r1.1, r1.2.1, some e)
  | none =>
    if r1.1.autoTracingMode = some .clock then
      match r1.1.clockName with
      | none => (r1.1, r1.2.1, some .attributeError)
      | some cn =>
        if cn = port then
          let r2 := add_to_vcd_trace r1.1
          (r2.1, r1.2.1 ++ r2.2.1, r2.2.2)
        else (r1.1, r1.2.1, none)
    else (r1.1, r1.2.1, none)

/-- `_write_32`: one native setter call, then the post-write hook. -/
def write_32 (s : PVState) (port : Name) (v : Nat) : OpResult :=
  let s1 := { s with store := write32Store s.store port v }
  let r := post_write_hook s1 port
  (r.1, .setCall port :: r.2.1, r.2.2)

/-- `_write_64`: one native setter call, then the post-write hook. -/
def write_64 (s : PVState) (port : Name) (v : Nat) : OpResult :=
  let s1 := { s with store := write64Store s.store port v }
  let r := post_write_hook s1 port
  (r.1, .setCall port :: r.2.1, r.2.2)

/-- `_write_words`: one indexed setter call per word, then the post-write
hook. -/
def write_words (s : PVState) (port : Name) (numWords v : Nat) : OpResult :=
  let s1 := { s with store := writeWordsStore s.store port numWords v }
  let r := post_write_hook s1 port
  (r.1, (List.range numWords).map (fun _ => Ev.setCall port) ++ r.2.1, r.2.2)

/-- Message of the `ValueError` raised by `_write` for a port that is not
an input. -/
def writeErrMsg (port : Name) : Name :=
  "cannot write port \"".toList ++ port ++
    "\" because it does not exist (or it is an output)".toList

/-- Message of the `ValueError` raised by `_read` for an unknown port. -/
def readErrMsg (port : Name) : Name :=
  "cannot read port \"".toList ++ port ++
    "\" because it does not exist".toList

/-- `_write`: look the port up among the inputs only, then dispatch on the
width tier. -/
def writeDispatch (cfg : SigConfig) (s : PVState) (port : Name) (v : Nat) :
    OpResult :=
  match lookupWidthLast cfg.inputs port with
  | none => (s, [], some (.valueError (writeErrMsg port)))
  | some w =>
    if 64 < w then write_words s port ((w + 31) / 32) v
    else if 32 < w then write_64 s port v
    else write_32 s port v

/-- `_read`: look the port up among inputs, outputs and internal signals,
then dispatch on the width tier (reading performs no mutation). -/
def readDispatch (cfg : SigConfig) (s : PVState) (port : Name) :
    Except PyErr Nat :=
  match lookupWidthLast (cfg.inputs ++ cfg.outputs ++ cfg.internals) port with
  | none => .error (.valueError (readErrMsg port))
  | some w =>
    if 64 < w then .ok (readWordsStore s.store port ((w + 31) / 32))
    else if 32 < w then .ok (read64Store s.store port)
    else .ok (read32Store s.store port)

/-- `start_vcd_trace`: fails if a trace is already active; otherwise binds
the trace handle and filename, picks the auto-tracing mode (clock mode when
a clock is bound), resets the logical time and appends initial data. -/
def start_vcd_trace (s : PVState) (filename : Name) (autoTracing : Bool) :
    OpResult :=
  match s.vcdTrace with
  | some _ => (s, [], some (.valueError
      ("start_vcd_trace() called while VCD tracing is already active".toList)))
  | none =>
    let s1 := { s with
      vcdTrace := some 1
      vcdFilename := some filename
      autoTracingMode :=
        if !autoTracing then none
        else if s.clockName.isSome then some ATMode.clock else some ATMode.eval
      currTime := 0 }
    let r := add_to_vcd_trace s1
    (r.1, .startTrace filename :: r.2.1, r.2.2)

/-- `stop_vcd_trace`: fails if no trace is active; otherwise closes the
trace and clears the trace handle, mode and filename. -/
def stop_vcd_trace (s : PVState) : OpResult :=
  match s.vcdTrace with
  | none => (s, [], some (.valueError
      ("stop_vcd_trace() requires VCD tracing to be active".toList)))
  | some _ =>
    ({ s with vcdTrace := none, autoTracingMode := none, vcdFilename := none },
      [.stopTrace], none)

/-- Worker of `_sim_init`: write `0` to each input in order, stopping at
the first raised error. -/
def simInitGo (cfg : SigConfig) (s : PVState) : List Name → OpResult
  | [] => (s, [], none)
  | n :: rest =>
    let r1 := writeDispatch cfg s n 0
    match r1.2.2 with
    | some e => (r1.1, r1.2.1, some e)
    | none =>
      let r2 := simInitGo cfg r1.1 rest
      (r2.1, r1.2.1 ++ r2.2.1, r2.2.2)

/-- `_sim_init`: initialize all the inputs to 0. -/
def sim_init (cfg : SigConfig) (s : PVState) : OpResult :=
  simInitGo cfg s (cfg.inputs.map Prod.fst)

/-! ### Width tiers -/

/-- The three width tiers of the get/set calling convention. -/
inductive WidthTier where
  | single32
  | single64
  | multiWord
  deriving DecidableEq, Repr

/-- Tier bound by `Signal.__init__` for reading (`_read_32`, `_read_64`, or
`_read_words` with `(width + 31) // 32` words). -/
def signalReadTier (width : Nat) : WidthTier :=
  if width ≤ 32 then .single32
  else if width ≤ 64 then .single64
  else .multiWord

/-- Number of native getter/setter calls made by the handle layer for one
read or write of a signal of the given width. -/
def signalNumCalls (width : Nat) : Nat :=
  if width ≤ 32 then 1
  else if width ≤ 64 then 1
  else (width + 31) / 32

/-- Tier bound by `Input.__init__` for writing (`_write_32`, `_write_64`,
or `_write_words` with `(width + 31) // 32` words). -/
def inputWriteTier (width : Nat) : WidthTier :=
  if width ≤ 32 then .single32
  else if width ≤ 64 then .single64
  else .multiWord

/-- Tier of the getter emitted by `function_definitions_cpp` for a port of
the given width (the `port[1] > 64` / `port[1] > 32` conditionals): an
indexed `uint32` word getter, a `uint64` getter, or a `uint32` getter. -/
def genGetterTier (width : Nat) : WidthTier :=
  if width > 64 then .multiWord
  else if width > 32 then .single64
  else .single32

/-- Tier of the setter emitted by `function_definitions_cpp` (emitted for
inputs only), with the same conditional structure as the getters. -/
def genSetterTier (width : Nat) : WidthTier :=
  if width > 64 then .multiWord
  else if width > 32 then .single64
  else .single32

/-! ### Clock auto-detection -/

/-- Python's `str.lower` on the ASCII names involved. -/
def asciiLower (s : Name) : Name :=
  s.map (fun c => if 'A' ≤ c ∧ c ≤ 'Z' then Char.ofNat (c.toNat + 32) else c)

/-- One entry of the `io` collection, in iteration order: short name,
whether it is an `Input` handle, and its width. -/
structure IoEntry where
  sname : Name
  isInput : Bool
  width : Nat
  deriving DecidableEq, Repr

/-- `Clock.__init__`: raises `TypeError` unless made from an `Input` and
`ValueError` unless the signal is 1 bit wide. -/
def mkClock (e : IoEntry) : Except PyErr IoEntry :=
  if !e.isInput then
    .error (.typeError ("Clock must be made from an Input".toList))
  else if e.width ≠ 1 then
    .error (.valueError ("Clock must be a 1-bit signal".toList))
  else .ok e

/-- First scan: `sig_name.lower() == 'clock' or sig_name.lower() == 'clk'`. -/
def clockEqPass (e : IoEntry) : Bool :=
  asciiLower e.sname == "clock".toList || asciiLower e.sname == "clk".toList

/-- Second scan: `sig_name.startswith('clock') or sig_name.startswith('clk')`
(case-sensitive in the code). -/
def clockStartPass (e : IoEntry) : Bool :=
  ("clock".toList).isPrefixOf e.sname || ("clk".toList).isPrefixOf e.sname

/-- Third scan: `sig_name.endswith('clock') or sig_name.endswith('clk')`
(case-sensitive in the code). -/
def clockEndPass (e : IoEntry) : Bool :=
  ("clock".toList).isSuffixOf e.sname || ("clk".toList).isSuffixOf e.sname

/-- The clock auto-detection of `PyVerilator.__init__`: three scans of the
`io` entries in priority order, each stopping at its first match; the first
matching entry is made into a `Clock`, which raises unless it is a 1-bit
input; when nothing matches, no clock is bound. -/
def autodetectClock (entries : List IoEntry) : Except PyErr (Option IoEntry) :=
  match entries.find? clockEqPass with
  | some e => (mkClock e).map some
  | none =>
    match entries.find? clockStartPass with
    | some e => (mkClock e).map some
    | none =>
      match entries.find? clockEndPass with
      | some e => (mkClock e).map some
      | none => .ok none

/-! ### Instance destruction -/

/-- The `lib` attribute of an instance: present (holding `None` or a
loaded-library handle) or deleted by a prior `__del__`. -/
inductive LibAttr where
  | present (lib : Option Nat)
  | deleted
  deriving DecidableEq, Repr

/-- The attributes of an instance relevant to `__del__`: `self.model`
(never cleared by the code) and `self.lib`. -/
structure InstAttrs where
  model : Option Nat
  lib : LibAttr
  deriving DecidableEq, Repr

/-- `__del__`: if `self.model is not None`, resolve `self.lib.destruct`
(an `AttributeError` when the `lib` attribute was deleted or holds `None`)
and call it on the model; then if `self.lib is not None`, `del self.lib`. -/
def delStep (st : InstAttrs) : InstAttrs × List Ev × Option PyErr :=
  match st.model with
  | some m =>
    match st.lib with
    | .deleted => (st, [], some .attributeError)
    | .present none => (st, [], some .attributeError)
    | .present (some _) =>
      ({ st with lib := .deleted }, [.destructCall m], none)
  | none =>
    match st.lib with
    | .deleted => (st, [], some .attributeError)
    | .present none => (st, [], none)
    | .present (some _) => ({ st with lib := .deleted }, [], none)

/-! ### The write dispatcher under a trivial tracing mode -/

/-- The store update performed by `_write` for a port of width `w`
(the three tiers of the dispatcher). -/
def tierWriteStore (st : Store) (port : Name) (w v : Nat) : Store :=
  if 64 < w then writeWordsStore st port ((w + 31) / 32) v
  else if 32 < w then write64Store st port v
  else write32Store st port v

/-- The value produced by `_read` for a port of width `w` (the three tiers
of the dispatcher). -/
def tierRead (st : Store) (port : Name) (w : Nat) : Nat :=
  if 64 < w then readWordsStore st port ((w + 31) / 32)
  else if 32 < w then read64Store st port
  else read32Store st port

/-! ### Concrete fixtures for witnesses and counterexamples -/

/-- A freshly-constructed instance state: auto-eval on, no trace bound, no
clock bound, zeroed logical time, arbitrary (zero) native storage. -/
def st0 : PVState :=
  { autoEval := true, vcdTrace := none, vcdFilename := none,
    autoTracingMode := none, currTime := 0, clockName := none,
    store := fun _ _ => 0 }

/-- A configuration whose only signal is a 1-bit output `o`. -/
def cfgOutOnly : SigConfig :=
  { inputs := [], outputs := [(['o'], 1)], internals := [] }

/-- A small configuration with two inputs and one output. -/
def cfgW : SigConfig :=
  { inputs := [(['a'], 8), (['b'], 100)], outputs := [(['c'], 1)],
    internals := [] }

/-! ### Unfolding lemmas for the splitter -/

theorem splitGo_nil (sep acc : Name) (skip : Nat) :
    splitGo sep acc skip [] = [acc.reverse] := rfl

theorem splitGo_skip (sep acc : Name) (k : Nat) (c : Char) (rest : Name) :
    splitGo sep acc (k + 1) (c :: rest) = splitGo sep acc k rest := rfl

theorem splitGo_pos {sep : Name} {c : Char} {rest : Name} (acc : Name)
    (h : sep.isPrefixOf (c :: rest) = true) :
    splitGo sep acc 0 (c :: rest) =
      acc.reverse :: splitGo sep [] (sep.length - 1) rest := by
  simp [splitGo, h]

theorem splitGo_neg {sep : Name} {c : Char} {rest : Name} (acc : Name)
    (h : sep.isPrefixOf (c :: rest) = false) :
    splitGo sep acc 0 (c :: rest) = splitGo sep (c :: acc) 0 rest := by
  simp [splitGo, h]

/-! ### Hex digit facts -/

theorem hexDigitUpper_ne_underscore {n : Nat} (h : n < 16) :
    hexDigitUpper n ≠ '_' := by
  interval_cases n <;> decide

theorem hexDigitVal?_hexDigitUpper {n : Nat} (h : n < 16) :
    hexDigitVal? (hexDigitUpper n) = some n := by
  interval_cases n <;> decide

theorem hexHi_ne_underscore {c : Char} (h : c.toNat < 256) : hexHi c ≠ '_' :=
  hexDigitUpper_ne_underscore (Nat.div_lt_of_lt_mul (by omega))

theorem hexLo_ne_underscore (c : Char) : hexLo c ≠ '_' :=
  hexDigitUpper_ne_underscore (Nat.mod_lt _ (by omega))

theorem pieces_ne_nil (its : List EncItem) : pieces its ≠ [] := by
  rcases its with _ | ⟨c | c, its⟩ <;> simp [pieces]

theorem render_cons (it : EncItem) (its : List EncItem) :
    render (it :: its) = renderItem it ++ render its := by
  simp [render]

/-- Scanning a rendered atom sequence with the `__0` splitter recovers
exactly its `pieces`: every occurrence of `__0` in the rendering starts an
escape sequence. -/
theorem splitGo_render_sep0 (its : List EncItem) (acc : Name)
    (hinv : Inv its) (hb : ∀ c, EncItem.esc c ∈ its → c.toNat < 256) :
    splitGo sep0 acc 0 (render its) =
      (acc.reverse ++ (pieces its).headD []) :: (pieces its).tail := by
  induction its generalizing acc with
  | nil => simp [render, pieces, splitGo_nil]
  | cons it its ih =>
    have hinv' : Inv its := (List.chain'_cons'.mp hinv).2
    cases it with
    | plain c =>
      have hb' : ∀ d, EncItem.esc d ∈ its → d.toNat < 256 := by
        intro d hd; exact hb d (List.mem_cons_of_mem _ hd)
      have h1 : sep0.isPrefixOf (c :: render its) = false := by
        by_cases hc : c = '_'
        · subst hc
          rcases its with _ | ⟨d | d, its2⟩
          · simp [render, sep0, List.isPrefixOf]
          · have hd : d ≠ '_' := by
              have := (List.chain'_cons'.mp hinv).1 (EncItem.plain d) (by simp)
              intro hdeq; exact this ⟨rfl, by rw [hdeq]⟩
            simp [render_cons, renderItem, sep0, List.isPrefixOf, Ne.symm hd]
          · simp [render_cons, renderItem, sep0, List.isPrefixOf]
        · simp [sep0, List.isPrefixOf, Ne.symm hc]
      rw [render_cons, renderItem]
      rw [show ([c] : Name) ++ render its = c :: render its from rfl]
      rw [splitGo_neg acc h1, ih (c :: acc) hinv' hb']
      simp [pieces]
    | esc c =>
      have hc : c.toNat < 256 := hb c (by simp)
      have hb' : ∀ d, EncItem.esc d ∈ its → d.toNat < 256 := by
        intro d hd; exact hb d (List.mem_cons_of_mem _ hd)
      have h1 : sep0.isPrefixOf
          ('_' :: '_' :: '0' :: hexHi c :: hexLo c :: render its) = true := by
        simp [sep0, List.isPrefixOf]
      have h2 : sep0.isPrefixOf (hexHi c :: hexLo c :: render its) = false := by
        simp [sep0, List.isPrefixOf, Ne.symm (hexHi_ne_underscore hc)]
      have h3 : sep0.isPrefixOf (hexLo c :: render its) = false := by
        simp [sep0, List.isPrefixOf, Ne.symm (hexLo_ne_underscore c)]
      rw [render_cons, renderItem]
      rw [show ('_' :: '_' :: '0' :: hexHi c :: hexLo c :: []) ++ render its =
        '_' :: '_' :: '0' :: hexHi c :: hexLo c :: render its from rfl]
      rw [splitGo_pos acc h1]
      rw [show sep0.length - 1 = 2 from rfl]
      rw [splitGo_skip, splitGo_skip, splitGo_neg [] h2, splitGo_neg [hexHi c] h3]
      rw [ih [hexLo c, hexHi c] hinv' hb']
      simp [pieces]

theorem pySplit_render (its : List EncItem) (hinv : Inv its)
    (hb : ∀ c, EncItem.esc c ∈ its → c.toNat < 256) :
    pySplit sep0 (render its) = pieces its := by
  rw [pySplit, splitGo_render_sep0 its [] hinv hb]
  rcases h : pieces its with _ | ⟨p, ps⟩
  · exact absurd h (pieces_ne_nil its)
  · simp [h]

/-- Decoding the non-leading pieces succeeds and, together with the leading
piece, reproduces the characters the atoms stand for. -/
theorem pieces_spec (its : List EncItem)
    (hb : ∀ c, EncItem.esc c ∈ its → c.toNat < 256) :
    ∃ ds, ((pieces its).tail).mapM decodeEscPiece = Except.ok ds ∧
      (pieces its).headD [] ++ ds.flatten = its.map itemChar := by
  induction its with
  | nil => exact ⟨[], rfl, rfl⟩
  | cons it its ih =>
    have hb' : ∀ d, EncItem.esc d ∈ its → d.toNat < 256 := by
      intro d hd; exact hb d (List.mem_cons_of_mem _ hd)
    obtain ⟨ds, h1, h2⟩ := ih hb'
    cases it with
    | plain c =>
      refine ⟨ds, h1, ?_⟩
      show c :: ((pieces its).headD [] ++ ds.flatten) =
        c :: List.map itemChar its
      exact congrArg (List.cons c) h2
    | esc c =>
      have hc : c.toNat < 256 := hb c (by simp)
      have hdec : decodeEscPiece (hexHi c :: hexLo c :: (pieces its).headD []) =
          Except.ok (c :: (pieces its).headD []) := by
        have hhi : hexDigitVal? (hexHi c) = some (c.toNat / 16) :=
          hexDigitVal?_hexDigitUpper (Nat.div_lt_of_lt_mul (by omega))
        have hlo : hexDigitVal? (hexLo c) = some (c.toNat % 16) :=
          hexDigitVal?_hexDigitUpper (Nat.mod_lt _ (by omega))
        simp [decodeEscPiece, pyIntHex, hhi, hlo, Nat.div_add_mod]
      refine ⟨(c :: (pieces its).headD []) :: ds, ?_, ?_⟩
      · show ((hexHi c :: hexLo c :: (pieces its).headD []) ::
            (pieces its).tail).mapM decodeEscPiece = _
        rw [List.mapM_cons, hdec, h1]
        rfl
      · show (c :: (pieces its).headD []) ++ ds.flatten =
          c :: List.map itemChar its
        show c :: ((pieces its).headD [] ++ ds.flatten) =
          c :: List.map itemChar its
        exact congrArg (List.cons c) h2

/-- Decoding a rendered well-formed atom sequence recovers its characters. -/
theorem decodeSegment_render (its : List EncItem) (hinv : Inv its)
    (hb : ∀ c, EncItem.esc c ∈ its → c.toNat < 256) :
    decodeSegment (render its) = .ok (its.map itemChar) := by
  rw [decodeSegment, pySplit_render its hinv hb]
  obtain ⟨ds, h1, h2⟩ := pieces_spec its hb
  rcases h : pieces its with _ | ⟨p, ps⟩
  · exact absurd h (pieces_ne_nil its)
  · rw [h] at h1 h2
    simp only [List.tail_cons, List.headD_cons] at h1 h2
    show (do
      let decoded ← ps.mapM decodeEscPiece
      Except.ok (p ++ decoded.flatten)) = Except.ok (List.map itemChar its)
    rw [h1]
    exact congrArg Except.ok h2

/-! ### Properties of the modelled escaping -/

theorem itemChar_encodeItems (s : List Char) :
    ∀ first prevU, (encodeItems first prevU s).map itemChar = s := by
  induction s with
  | nil => intro f p; simp [encodeItems]
  | cons c rest ih =>
    intro f p
    rw [encodeItems]
    split <;> simp [itemChar, ih]

theorem esc_mem_encodeItems (s : List Char) :
    ∀ first prevU c, EncItem.esc c ∈ encodeItems first prevU s → c ∈ s := by
  induction s with
  | nil => intro f p c h; simp [encodeItems] at h
  | cons d rest ih =>
    intro f p c h
    rw [encodeItems] at h
    split at h <;> rcases List.mem_cons.mp h with h' | h'
    · cases h'; exact List.mem_cons_self _ _
    · exact List.mem_cons_of_mem _ (ih _ _ _ h')
    · cases h'
    · exact List.mem_cons_of_mem _ (ih _ _ _ h')

theorem encodeItems_head_prevU (s : List Char) (first : Bool) :
    (encodeItems first true s).head? ≠ some (EncItem.plain '_') := by
  cases s with
  | nil => simp [encodeItems]
  | cons c rest =>
    rw [encodeItems]
    split
    · simp
    · rename_i hcond
      simp only [List.head?_cons, Option.some_inj]
      intro heq
      cases heq
      simp [isLegalChar] at hcond

theorem Inv_encodeItems (s : List Char) :
    ∀ first prevU, Inv (encodeItems first prevU s) := by
  induction s with
  | nil => intro f p; simp [encodeItems, Inv]
  | cons c rest ih =>
    intro f p
    rw [Inv, encodeItems]
    split
    · exact List.chain'_cons'.mpr ⟨fun y _ => by simp, ih false (c == '_')⟩
    · refine List.chain'_cons'.mpr ⟨?_, ih false (c == '_')⟩
      intro y hy hcontra
      obtain ⟨hc, hy'⟩ := hcontra
      cases hc
      rw [show (('_' : Char) == '_') = true from by decide] at hy
      exact encodeItems_head_prevU rest false (by rw [hy, hy'])

/-- Decoding an escaped segment recovers the original characters
(the inner-loop round trip). -/
theorem decodeSegment_encodeName (s : List Char) (hb : ∀ c ∈ s, c.toNat < 256) :
    decodeSegment (encodeName s) = .ok s := by
  rw [encodeName,
    decodeSegment_render _ (Inv_encodeItems s true false)
      (fun c hc => hb c (esc_mem_encodeItems s true false c hc)),
    itemChar_encodeItems]

/-! ### Splitting the full raw name on the hierarchy separator -/

/-- Scanning a rendered well-formed atom sequence never matches `__DOT__`
(also not straddling into a following separator), so the scanner just
accumulates the rendering and continues on the tail. -/
theorem splitGo_render_sepDOT (its : List EncItem) (tail : Name)
    (hinv : Inv its) (hb : ∀ c, EncItem.esc c ∈ its → c.toNat < 256)
    (htail : tail = [] ∨ sepDOT.isPrefixOf tail = true) :
    ∀ acc, splitGo sepDOT acc 0 (render its ++ tail) =
      splitGo sepDOT ((render its).reverse ++ acc) 0 tail := by
  induction its with
  | nil => intro acc; simp [render]
  | cons it its ih =>
    intro acc
    have hinv' : Inv its := (List.chain'_cons'.mp hinv).2
    have hb' : ∀ d, EncItem.esc d ∈ its → d.toNat < 256 :=
      fun d hd => hb d (List.mem_cons_of_mem _ hd)
    cases it with
    | plain c =>
      have h1 : sepDOT.isPrefixOf (c :: (render its ++ tail)) = false := by
        by_cases hc : c = '_'
        · subst hc
          rcases its with _ | ⟨d | d, its2⟩
          · rcases htail with rfl | htail
            · simp [render, sepDOT, List.isPrefixOf]
            · obtain ⟨rest, rfl⟩ := List.isPrefixOf_iff_prefix.mp htail
              simp [render, sepDOT, List.isPrefixOf]
          · have hd : d ≠ '_' := by
              have := (List.chain'_cons'.mp hinv).1 (EncItem.plain d) (by simp)
              intro hdeq; exact this ⟨rfl, by rw [hdeq]⟩
            simp [render_cons, renderItem, sepDOT, List.isPrefixOf, Ne.symm hd]
          · simp [render_cons, renderItem, sepDOT, List.isPrefixOf]
        · simp [sepDOT, List.isPrefixOf, Ne.symm hc]
      rw [render_cons, renderItem,
        show (([c] : Name) ++ render its) ++ tail = c :: (render its ++ tail)
          from by simp,
        splitGo_neg acc h1, ih hinv' hb' (c :: acc)]
      simp

    | esc c =>
      have hc : c.toNat < 256 := hb c (by simp)
      have p0 : sepDOT.isPrefixOf
          ('_' :: '_' :: '0' :: hexHi c :: hexLo c :: (render its ++ tail)) =
            false := by
        simp [sepDOT, List.isPrefixOf]
      have p1 : sepDOT.isPrefixOf
          ('_' :: '0' :: hexHi c :: hexLo c :: (render its ++ tail)) = false := by
        simp [sepDOT, List.isPrefixOf]
      have p2 : sepDOT.isPrefixOf
          ('0' :: hexHi c :: hexLo c :: (render its ++ tail)) = false := by
        simp [sepDOT, List.isPrefixOf]
      have p3 : sepDOT.isPrefixOf
          (hexHi c :: hexLo c :: (render its ++ tail)) = false := by
        simp [sepDOT, List.isPrefixOf, Ne.symm (hexHi_ne_underscore hc)]
      have p4 : sepDOT.isPrefixOf (hexLo c :: (render its ++ tail)) = false := by
        simp [sepDOT, List.isPrefixOf, Ne.symm (hexLo_ne_underscore c)]
      rw [render_cons, renderItem,
        show (('_' :: '_' :: '0' :: hexHi c :: hexLo c :: []) ++ render its)
            ++ tail =
          '_' :: '_' :: '0' :: hexHi c :: hexLo c :: (render its ++ tail)
          from by simp,
        splitGo_neg acc p0, splitGo_neg _ p1, splitGo_neg _ p2,
        splitGo_neg _ p3, splitGo_neg _ p4,
        ih hinv' hb' (hexLo c :: hexHi c :: '0' :: '_' :: '_' :: acc)]
      simp

/-- Splitting the `__DOT__`-joined renderings recovers exactly the rendered
segments. -/
theorem pySplit_joinSep (segss : List (List EncItem))
    (hinv : ∀ its ∈ segss, Inv its)
    (hb : ∀ its ∈ segss, ∀ c, EncItem.esc c ∈ its → c.toNat < 256)
    (hne : segss ≠ []) :
    pySplit sepDOT (joinSep sepDOT (segss.map render)) = segss.map render := by
  induction segss with
  | nil => exact absurd rfl hne
  | cons its segss ih =>
    rcases segss with _ | ⟨its2, segss2⟩
    · show pySplit sepDOT (joinSep sepDOT [render its]) = [render its]
      rw [joinSep, pySplit,
        show render its = render its ++ [] from by simp,
        splitGo_render_sepDOT its [] (hinv _ (by simp)) (hb _ (by simp))
          (Or.inl rfl)]
      simp [splitGo_nil]
    · have hpre : sepDOT.isPrefixOf
          (sepDOT ++ joinSep sepDOT (List.map render (its2 :: segss2))) =
            true :=
        List.isPrefixOf_iff_prefix.mpr (List.prefix_append _ _)
      have hjoin : joinSep sepDOT (List.map render (its :: its2 :: segss2)) =
          render its ++
            (sepDOT ++ joinSep sepDOT (List.map render (its2 :: segss2))) :=
        List.append_assoc (render its) sepDOT _
      rw [pySplit, hjoin,
        splitGo_render_sepDOT its _ (hinv _ (by simp)) (hb _ (by simp))
          (Or.inr hpre)]
      rw [show sepDOT ++ joinSep sepDOT (List.map render (its2 :: segss2)) =
        '_' :: ('_' :: 'D' :: 'O' :: 'T' :: '_' :: '_' ::
          joinSep sepDOT (List.map render (its2 :: segss2))) from rfl]
      rw [splitGo_pos _ (by
        exact List.isPrefixOf_iff_prefix.mpr (List.prefix_append _ _)),
        show sepDOT.length - 1 = 6 from rfl,
        splitGo_skip, splitGo_skip, splitGo_skip, splitGo_skip, splitGo_skip,
        splitGo_skip]
      have ih' := ih (fun x hx => hinv x (List.mem_cons_of_mem _ hx))
        (fun x hx => hb x (List.mem_cons_of_mem _ hx)) (by simp)
      rw [pySplit] at ih'
      rw [ih']
      simp

/-- Decoding the encoded segments one by one succeeds and recovers them. -/
theorem mapM_decodeSegment_encodeName (l : List (List Char))
    (hb : ∀ s ∈ l, ∀ c ∈ s, c.toNat < 256) :
    (l.map encodeName).mapM decodeSegment = Except.ok l := by
  induction l with
  | nil => rfl
  | cons s l ih =>
    rw [List.map_cons, List.mapM_cons, decodeSegment_encodeName s (hb s (by simp)),
      ih (fun t ht c hc => hb t (List.mem_cons_of_mem _ ht) c hc)]
    rfl

/-- Full characterization of the decoder on names built from the escape
grammar: splitting recovers the escaped segments, the top-module segment is
dropped when there is more than one, and each kept segment is unescaped. -/
theorem decode_joinSep_encodeName (segs : List (List Char)) (hne : segs ≠ [])
    (hb : ∀ s ∈ segs, ∀ c ∈ s, c.toNat < 256)
    (hbra : pyContains braMark (joinSep sepDOT (segs.map encodeName)) = false)
    (hket : pyContains ketMark (joinSep sepDOT (segs.map encodeName)) = false) :
    verilator_name_to_standard_modular_name
        (joinSep sepDOT (segs.map encodeName)) =
      .ok (if segs.length ≤ 1 then segs else segs.tail) := by
  have hmapmap : segs.map encodeName =
      (segs.map (encodeItems true false)).map render := by
    rw [List.map_map]; rfl
  have hsplit : pySplit sepDOT (joinSep sepDOT (segs.map encodeName)) =
      segs.map encodeName := by
    rw [hmapmap]
    exact pySplit_joinSep _
      (fun its hits => by
        obtain ⟨s, _, rfl⟩ := List.mem_map.mp hits
        exact Inv_encodeItems s true false)
      (fun its hits c hc => by
        obtain ⟨s, hs, rfl⟩ := List.mem_map.mp hits
        exact hb s hs c (esc_mem_encodeItems s true false c hc))
      (by simpa using hne)
  rw [verilator_name_to_standard_modular_name, hbra, hket]
  simp only [Bool.or_self, Bool.false_eq_true, if_false]
  rw [hsplit, List.length_map]
  by_cases hlen : segs.length > 1
  · rw [if_pos hlen, if_neg (by omega)]
    rw [show (segs.map encodeName).tail = segs.tail.map encodeName from by
      rcases segs with _ | ⟨s, rest⟩ <;> simp]
    exact mapM_decodeSegment_encodeName segs.tail
      (fun t ht c hc => hb t (List.mem_of_mem_tail ht) c hc)
  · rw [if_neg hlen, if_pos (by omega)]
    exact mapM_decodeSegment_encodeName segs hb

theorem writeWordsStore_get (st : Store) (p : Name) (v : Nat) :
    ∀ n q j, writeWordsStore st p n v q j =
      if q = p ∧ j < n then (v >>> (j * 32)) % 2 ^ 32 else st q j := by
  intro n
  induction n with
  | zero => intro q j; simp [writeWordsStore]
  | succ n ih =>
    intro q j
    have hstep : writeWordsStore st p (n + 1) v q j =
        setWord (writeWordsStore st p n v) p n ((v >>> (n * 32)) % 2 ^ 32) q j := by
      rw [writeWordsStore, List.range_succ, List.foldl_append]
      rfl
    rw [hstep]
    simp only [setWord]
    rw [ih q j]
    by_cases hq : q = p
    · subst hq
      by_cases hj : j = n
      · subst hj
        simp [Nat.lt_succ_self]
      · by_cases hjn : j < n
        · rw [if_neg (fun h => hj h.2), if_pos ⟨rfl, hjn⟩, if_pos ⟨rfl, by omega⟩]
        · rw [if_neg (fun h => hj h.2), if_neg (fun h => hjn h.2),
            if_neg (fun h => absurd h.2 (by omega))]
    · rw [if_neg (fun h => hq h.1), if_neg (fun h => hq h.1),
        if_neg (fun h => hq h.1)]

theorem readWordsStore_of_words (p : Name) (v : Nat) :
    ∀ (n : Nat) (st : Store), (∀ i, i < n → st p i = (v >>> (i * 32)) % 2 ^ 32) →
      readWordsStore st p n = v % 2 ^ (n * 32) := by
  intro n
  induction n with
  | zero => intro st _; simp [readWordsStore, Nat.mod_one]
  | succ n ih =>
    intro st hst
    rw [readWordsStore, List.range_succ, List.foldl_append]
    have hfold : (List.range n).foldl (fun out i => out ||| (st p i <<< (i * 32))) 0 =
        v % 2 ^ (n * 32) := by
      rw [← readWordsStore]
      exact ih st (fun i hi => hst i (by omega))
    show ((List.range n).foldl (fun out i => out ||| (st p i <<< (i * 32))) 0) |||
        (st p n <<< (n * 32)) = v % 2 ^ ((n + 1) * 32)
    rw [hfold, hst n (by omega), Nat.shiftLeft_eq, Nat.shiftRight_eq_div_pow]
    have hlt : v % 2 ^ (n * 32) < 2 ^ (n * 32) :=
      Nat.mod_lt _ (Nat.pos_pow_of_pos _ (by omega))
    rw [Nat.lor_comm, Nat.mul_comm ((v / 2 ^ (n * 32)) % 2 ^ 32) (2 ^ (n * 32)),
      ← Nat.mul_add_lt_is_or hlt]
    have : (n + 1) * 32 = n * 32 + 32 := by ring
    rw [this, Nat.pow_add, Nat.mod_mul]
    omega

/-- Round trip of the multi-word marshalling: writing a value that fits in
the width with `_write_words` and reading it back with `_read_words`
(both using `num_words = (width + 31) // 32` words) recovers the value. -/
theorem readWords_writeWords (st : Store) (p : Name) (w v : Nat)
    (hw : 64 < w) (hv : v < 2 ^ w) :
    readWordsStore (writeWordsStore st p ((w + 31) / 32) v) p ((w + 31) / 32)
      = v := by
  set n := (w + 31) / 32 with hn
  have hwords : ∀ i, i < n →
      writeWordsStore st p n v p i = (v >>> (i * 32)) % 2 ^ 32 := by
    intro i hi
    rw [writeWordsStore_get]
    simp [hi]
  rw [readWordsStore_of_words p v n _ hwords]
  have h32 : w ≤ n * 32 := by
    have := Nat.div_add_mod (w + 31) 32
    have hr : (w + 31) % 32 < 32 := Nat.mod_lt _ (by omega)
    omega
  exact Nat.mod_eq_of_lt
    (lt_of_lt_of_le hv (Nat.pow_le_pow_right (by omega) h32))

/-! ### Behaviour of the post-write hook -/

theorem add_to_vcd_trace_no_eval (s : PVState) :
    Ev.evalCall ∉ (add_to_vcd_trace s).2.1 := by
  rcases h : s.vcdTrace <;> simp [add_to_vcd_trace, h]

theorem evalOp_events (s : PVState) :
    ∃ t, (evalOp s).2.1 = Ev.evalCall :: t := by
  unfold evalOp
  by_cases hm : s.autoTracingMode = some ATMode.eval
  · rw [if_pos hm]; exact ⟨(add_to_vcd_trace s).2.1, rfl⟩
  · rw [if_neg hm]; exact ⟨[], rfl⟩

/-- The hook's native calls are the evaluation's calls (when `auto_eval`)
followed by trace-append calls that contain no evaluation. -/
theorem post_write_hook_events (s : PVState) (port : Name) :
    ∃ t, (post_write_hook s port).2.1 =
      (if s.autoEval then (evalOp s).2.1 else []) ++ t ∧
      Ev.evalCall ∉ t := by
  unfold post_write_hook
  rcases hae : s.autoEval with _ | _
  · simp only [hae, Bool.false_eq_true, if_false]
    rcases hmode : (PVState.autoTracingMode s) with _ | m
    · exact ⟨[], by simp [hmode], by simp⟩
    · by_cases hclk : m = ATMode.clock
      · subst hclk
        rcases hcn : s.clockName with _ | cn
        · exact ⟨[], by simp [hmode, hcn], by simp⟩
        · by_cases hp : cn = port
          · refine ⟨(add_to_vcd_trace s).2.1, by simp [hmode, hcn, hp], ?_⟩
            exact add_to_vcd_trace_no_eval s
          · exact ⟨[], by simp [hmode, hcn, hp], by simp⟩
      · exact ⟨[], by simp [hmode, hclk], by simp⟩
  · simp only [hae, if_true]
    rcases herr : (evalOp s).2.2 with _ | e
    · rcases hmode : (evalOp s).1.autoTracingMode with _ | m
      · exact ⟨[], by simp [herr, hmode], by simp⟩
      · by_cases hclk : m = ATMode.clock
        · subst hclk
          rcases hcn : (evalOp s).1.clockName with _ | cn
          · exact ⟨[], by simp [herr, hmode, hcn], by simp⟩
          · by_cases hp : cn = port
            · refine ⟨(add_to_vcd_trace (evalOp s).1).2.1,
                by simp [herr, hmode, hcn, hp], ?_⟩
              exact add_to_vcd_trace_no_eval _
            · exact ⟨[], by simp [herr, hmode, hcn, hp], by simp⟩
        · exact ⟨[], by simp [herr, hmode, hclk], by simp⟩
    · exact ⟨[], by simp [herr], by simp⟩

theorem post_write_hook_eval_prefix (s : PVState) (port : Name)
    (h : s.autoEval = true) :
    ∃ t, (post_write_hook s port).2.1 = Ev.evalCall :: t := by
  obtain ⟨t, ht, _⟩ := post_write_hook_events s port
  obtain ⟨t', ht'⟩ := evalOp_events s
  rw [h] at ht
  rw [if_pos rfl, ht'] at ht
  exact ⟨t' ++ t, by rw [ht]; simp⟩

theorem post_write_hook_no_eval (s : PVState) (port : Name)
    (h : s.autoEval = false) :
    Ev.evalCall ∉ (post_write_hook s port).2.1 := by
  obtain ⟨t, ht, hno⟩ := post_write_hook_events s port
  rw [h] at ht
  simp only [Bool.false_eq_true, if_false, List.nil_append] at ht
  rw [ht]
  exact hno

theorem tierWriteStore_other (st : Store) (port : Name) (w v : Nat)
    (q : Name) (j : Nat) (hq : q ≠ port) :
    tierWriteStore st port w v q j = st q j := by
  unfold tierWriteStore
  split_ifs with h64 h32
  · rw [writeWordsStore_get]; simp [hq]
  · simp [write64Store, setWord, hq]
  · simp [write32Store, setWord, hq]

theorem tierRead_congr (st1 st2 : Store) (port : Name) (w : Nat)
    (h : ∀ j, st1 port j = st2 port j) :
    tierRead st1 port w = tierRead st2 port w := by
  unfold tierRead read32Store read64Store readWordsStore
  split_ifs with h64 h32
  · induction ((w + 31) / 32) with
    | zero => simp
    | succ n ih =>
      rw [List.range_succ, List.foldl_append, List.foldl_append]
      simp only [List.foldl_cons, List.foldl_nil]
      rw [ih, h n]
  · exact h 0
  · exact h 0

theorem hook_of_mode_none (s : PVState) (port : Name)
    (hmode : s.autoTracingMode = none) :
    post_write_hook s port =
      (s, if s.autoEval then [Ev.evalCall] else [], none) := by
  unfold post_write_hook evalOp
  rcases hae : s.autoEval with _ | _ <;> simp [hmode, hae]

theorem writeDispatch_some (cfg : SigConfig) (s : PVState) (port : Name)
    (v w : Nat) (hw : lookupWidthLast cfg.inputs port = some w) :
    writeDispatch cfg s port v =
      if 64 < w then write_words s port ((w + 31) / 32) v
      else if 32 < w then write_64 s port v
      else write_32 s port v := by
  unfold writeDispatch
  rw [hw]

theorem readDispatch_some (cfg : SigConfig) (s : PVState) (port : Name)
    (w : Nat)
    (hw : lookupWidthLast (cfg.inputs ++ cfg.outputs ++ cfg.internals) port
      = some w) :
    readDispatch cfg s port =
      if 64 < w then .ok (readWordsStore s.store port ((w + 31) / 32))
      else if 32 < w then .ok (read64Store s.store port)
      else .ok (read32Store s.store port) := by
  unfold readDispatch
  rw [hw]

theorem write_words_mode_none (s : PVState) (port : Name) (n v : Nat)
    (hmode : s.autoTracingMode = none) :
    write_words s port n v =
      ({ s with store := writeWordsStore s.store port n v },
       List.replicate n (Ev.setCall port) ++
         (if s.autoEval then [Ev.evalCall] else []), none) := by
  simp only [write_words]
  rw [hook_of_mode_none { s with store := writeWordsStore s.store port n v }
    port hmode]
  simp [List.map_const', List.length_range]

theorem write_64_mode_none (s : PVState) (port : Name) (v : Nat)
    (hmode : s.autoTracingMode = none) :
    write_64 s port v =
      ({ s with store := write64Store s.store port v },
       [Ev.setCall port] ++ (if s.autoEval then [Ev.evalCall] else []),
       none) := by
  simp only [write_64]
  rw [hook_of_mode_none { s with store := write64Store s.store port v }
    port hmode]
  simp

theorem write_32_mode_none (s : PVState) (port : Name) (v : Nat)
    (hmode : s.autoTracingMode = none) :
    write_32 s port v =
      ({ s with store := write32Store s.store port v },
       [Ev.setCall port] ++ (if s.autoEval then [Ev.evalCall] else []),
       none) := by
  simp only [write_32]
  rw [hook_of_mode_none { s with store := write32Store s.store port v }
    port hmode]
  simp

/-- With no auto-tracing, `_write` of a known input just updates the store,
performs the tier's setter calls and (when `auto_eval`) one eval call, and
raises nothing. -/
theorem writeDispatch_found_mode_none (cfg : SigConfig) (s : PVState)
    (port : Name) (v w : Nat)
    (hw : lookupWidthLast cfg.inputs port = some w)
    (hmode : s.autoTracingMode = none) :
    writeDispatch cfg s port v =
      ({ s with store := tierWriteStore s.store port w v },
       (if 64 < w then List.replicate ((w + 31) / 32) (Ev.setCall port)
        else [Ev.setCall port]) ++
          (if s.autoEval then [Ev.evalCall] else []),
       none) := by
  rw [writeDispatch_some cfg s port v w hw]
  unfold tierWriteStore
  by_cases h64 : 64 < w
  · rw [if_pos h64, if_pos h64, if_pos h64,
      write_words_mode_none s port ((w + 31) / 32) v hmode]
  · rw [if_neg h64, if_neg h64, if_neg h64]
    by_cases h32 : 32 < w
    · rw [if_pos h32, if_pos h32, write_64_mode_none s port v hmode]
    · rw [if_neg h32, if_neg h32, write_32_mode_none s port v hmode]

/-! ### Width lookup -/

theorem lookupWidth_foldl_none_iff (p : Name) :
    ∀ (sigs : List (Name × Nat)) (init : Option Nat),
      sigs.foldl (fun acc nw => if p = nw.1 then some nw.2 else acc) init = none ↔
        init = none ∧ p ∉ sigs.map Prod.fst := by
  intro sigs
  induction sigs with
  | nil => intro init; simp
  | cons a l ih =>
    intro init
    rw [List.foldl_cons, ih]
    by_cases hp : p = a.1
    · simp [hp]
    · simp [hp]

theorem lookupWidthLast_eq_none_iff (sigs : List (Name × Nat)) (p : Name) :
    lookupWidthLast sigs p = none ↔ p ∉ sigs.map Prod.fst := by
  rw [lookupWidthLast, lookupWidth_foldl_none_iff]
  simp

theorem lookupWidth_foldl_no_match (p : Name) :
    ∀ (l : List (Name × Nat)), p ∉ l.map Prod.fst →
      ∀ init, l.foldl (fun acc nw => if p = nw.1 then some nw.2 else acc) init
        = init := by
  intro l
  induction l with
  | nil => intro _ init; rfl
  | cons a l ih =>
    intro h init
    simp only [List.map_cons, List.mem_cons, not_or] at h
    rw [List.foldl_cons, if_neg h.1]
    exact ih h.2 init

theorem lookupWidthLast_append (p : Name) (l1 l2 : List (Name × Nat))
    (h : p ∉ l2.map Prod.fst) :
    lookupWidthLast (l1 ++ l2) p = lookupWidthLast l1 p := by
  rw [lookupWidthLast, List.foldl_append, lookupWidth_foldl_no_match p l2 h]
  rfl

theorem lookupWidthLast_of_mem_nodup (p : Name) (w : Nat) :
    ∀ sigs : List (Name × Nat), (p, w) ∈ sigs → (sigs.map Prod.fst).Nodup →
      lookupWidthLast sigs p = some w := by
  intro sigs
  induction sigs with
  | nil => intro h _; cases h
  | cons a l ih =>
    intro hmem hnd
    simp only [List.map_cons, List.nodup_cons] at hnd
    rw [lookupWidthLast, List.foldl_cons]
    rcases List.mem_cons.mp hmem with heq | hmem2
    · rw [← heq, if_pos rfl]
      have hnot : p ∉ l.map Prod.fst := by
        rw [← heq] at hnd
        exact hnd.1
      exact lookupWidth_foldl_no_match p l hnot (some w)
    · have hp : p ≠ a.1 := by
        intro he
        exact hnd.1 (he ▸ List.mem_map.mpr ⟨(p, w), hmem2, rfl⟩)
      rw [if_neg hp]
      exact ih hmem2 hnd.2

/-! ### Reading back after zero-initialization -/

theorem tierRead_write_zero (st : Store) (p : Name) (w : Nat) :
    tierRead (tierWriteStore st p w 0) p w = 0 := by
  unfold tierRead tierWriteStore
  split_ifs with h64 h32
  · rw [readWordsStore_of_words p 0 _ _
      (fun i hi => by rw [writeWordsStore_get]; simp [hi])]
    simp
  · simp [read64Store, write64Store, setWord]
  · simp [read32Store, write32Store, setWord]

/-- Invariants of the `_sim_init` loop: no error is raised, the tracing
mode stays off, ports not written keep their storage, and every written
port reads back as zero at its looked-up width. -/
theorem simInitGo_spec (cfg : SigConfig) (names : List Name) :
    ∀ s : PVState, s.autoTracingMode = none →
      (∀ n ∈ names, ∃ w, lookupWidthLast cfg.inputs n = some w) →
      (simInitGo cfg s names).2.2 = none ∧
      (simInitGo cfg s names).1.autoTracingMode = none ∧
      (∀ q j, q ∉ names → (simInitGo cfg s names).1.store q j = s.store q j) ∧
      (∀ q w, q ∈ names → lookupWidthLast cfg.inputs q = some w →
        tierRead (simInitGo cfg s names).1.store q w = 0) := by
  induction names with
  | nil =>
    intro s hmode _
    exact ⟨rfl, hmode, fun q j _ => rfl,
      fun q w hq _ => absurd hq (List.not_mem_nil q)⟩
  | cons n rest ih =>
    intro s hmode hn
    obtain ⟨wn, hwn⟩ := hn n (by simp)
    have hw := writeDispatch_found_mode_none cfg s n 0 wn hwn hmode
    have hstep : simInitGo cfg s (n :: rest) =
        ((simInitGo cfg { s with store := tierWriteStore s.store n wn 0 }
            rest).1,
          ((if 64 < wn then List.replicate ((wn + 31) / 32) (Ev.setCall n)
            else [Ev.setCall n]) ++
              (if s.autoEval then [Ev.evalCall] else [])) ++
            (simInitGo cfg { s with store := tierWriteStore s.store n wn 0 }
              rest).2.1,
          (simInitGo cfg { s with store := tierWriteStore s.store n wn 0 }
            rest).2.2) := by
      rw [simInitGo, hw]
    obtain ⟨he, hm, hother, hzero⟩ :=
      ih { s with store := tierWriteStore s.store n wn 0 } hmode
        (fun m hm2 => hn m (List.mem_cons_of_mem _ hm2))
    refine ⟨by rw [hstep]; exact he, by rw [hstep]; exact hm, ?_, ?_⟩
    · intro q j hq
      rw [hstep]
      have hq1 : q ∉ rest := fun hh => hq (List.mem_cons_of_mem _ hh)
      have hq2 : q ≠ n := fun hh => hq (hh ▸ List.mem_cons_self _ _)
      rw [hother q j hq1]
      exact tierWriteStore_other s.store n wn 0 q j hq2
    · intro q w hq hwq
      rw [hstep]
      rcases List.mem_cons.mp hq with heq | hq2
      · subst heq
        by_cases hqr : q ∈ rest
        · exact hzero q w hqr hwq
        · rw [tierRead_congr _
            (tierWriteStore s.store q wn 0) q w
            (fun j => hother q j hqr)]
          have hww : w = wn := by
            rw [hwq] at hwn
            exact Option.some_inj.mp hwn
          rw [hww]
          exact tierRead_write_zero s.store q wn
      · exact hzero q w hq2 hwq

/-! ### Helpers for the clock scan -/

theorem exceptMap_some_ok {α β : Type} (x : Except PyErr α) (f : α → β)
    (b : β) (h : x.map f = .ok b) : ∃ a, x = .ok a ∧ f a = b := by
  cases x with
  | error e => simp [Except.map] at h
  | ok a => exact ⟨a, rfl, by simpa [Except.map] using h⟩

theorem mkClock_ok (e e' : IoEntry) (h : mkClock e' = .ok e) :
    e = e' ∧ e'.isInput = true ∧ e'.width = 1 := by
  unfold mkClock at h
  split_ifs at h with h1 h2
  · exact ⟨(Except.ok.inj h).symm, by simpa using h1, not_ne_iff.mp h2⟩

/-! ### Claim theorems -/

/-- C1: For every signal of width `w > 64` and every value `V` with
`0 ≤ V < 2^w`, writing `V` to an input (splitting it into `ceil(w/32)`
32-bit words, word `i` holding bits `32*i..32*i+31`, one indexed setter
call per word) and then reading it back (reading each word via the indexed
getter and reassembling via `value |= word[i] << (32*i)`) yields exactly
`V`: the word-split and word-reassembly loops are mutual inverses on values
that fit in the width. -/
theorem C1_multiword_write_read_roundtrip (st : Store) (p : Name) (w v : Nat)
    (hw : 64 < w) (hv : v < 2 ^ w) :
    readWordsStore (writeWordsStore st p ((w + 31) / 32) v) p ((w + 31) / 32)
      = v :=
  readWords_writeWords st p w v hw hv

/-- Witness for C1 at width 96 with a concrete 96-bit value. -/
theorem C1_witness :
    64 < 96 ∧ 2 ^ 96 - 12345 < 2 ^ 96 ∧
    readWordsStore
        (writeWordsStore (fun _ _ => 0) ['a'] ((96 + 31) / 32) (2 ^ 96 - 12345))
        ['a'] ((96 + 31) / 32) = 2 ^ 96 - 12345 :=
  ⟨by decide, by decide,
    C1_multiword_write_read_roundtrip (fun _ _ => 0) ['a'] 96 (2 ^ 96 - 12345)
      (by decide) (by decide)⟩

/-- C2: Read and write dispatch on the width in exactly three tiers
(`w ≤ 32` one 32-bit word, `32 < w ≤ 64` one 64-bit word, `w > 64` exactly
`ceil(w/32)` indexed-word calls), and the glue-code generator emits its
getters and setters with the same three tiers for the same widths, so the
handle layer's marshalling matches the generated code tier-for-tier in both
directions. -/
theorem C2_width_tier_contract (w : Nat) :
    signalReadTier w = genGetterTier w ∧
    inputWriteTier w = genSetterTier w ∧
    (w ≤ 32 → genGetterTier w = WidthTier.single32 ∧ signalNumCalls w = 1) ∧
    (32 < w → w ≤ 64 →
      genGetterTier w = WidthTier.single64 ∧ signalNumCalls w = 1) ∧
    (64 < w → genGetterTier w = WidthTier.multiWord ∧
      signalNumCalls w = (w + 31) / 32 ∧
      w ≤ 32 * ((w + 31) / 32) ∧ 32 * ((w + 31) / 32) < w + 32) := by
  unfold signalReadTier inputWriteTier genGetterTier genSetterTier
    signalNumCalls
  refine ⟨?_, ?_, ?_, ?_, ?_⟩
  · split_ifs <;> first | rfl | omega
  · split_ifs <;> first | rfl | omega
  · intro h; split_ifs <;> first | exact ⟨rfl, rfl⟩ | omega
  · intro h1 h2; split_ifs <;> first | exact ⟨rfl, rfl⟩ | omega
  · intro h; split_ifs <;>
      first
      | exact ⟨rfl, rfl, by omega, by omega⟩
      | omega

/-- Witness for C2 at widths 16, 48 and 65 (one per tier). -/
theorem C2_witness :
    ((16 : Nat) ≤ 32 ∧ genGetterTier 16 = WidthTier.single32 ∧
      signalNumCalls 16 = 1) ∧
    ((32 : Nat) < 48 ∧ (48 : Nat) ≤ 64 ∧
      genGetterTier 48 = WidthTier.single64 ∧ signalNumCalls 48 = 1) ∧
    ((64 : Nat) < 65 ∧ genGetterTier 65 = WidthTier.multiWord ∧
      signalNumCalls 65 = (65 + 31) / 32 ∧
      65 ≤ 32 * ((65 + 31) / 32) ∧ 32 * ((65 + 31) / 32) < 65 + 32) :=
  ⟨⟨by decide, (C2_width_tier_contract 16).2.2.1 (by decide)⟩,
   ⟨by decide, by decide,
     (C2_width_tier_contract 48).2.2.2.1 (by decide) (by decide)⟩,
   ⟨by decide, (C2_width_tier_contract 65).2.2.2.2 (by decide)⟩⟩

/-- C3: For every input signal, when `auto_eval` is on, every successful
write invokes the model's eval function synchronously before the write call
returns (the eval call appears in the write's native-call sequence, right
after the setter calls); with `auto_eval` off, the write performs no
evaluation at all. -/
theorem C3_write_auto_eval (cfg : SigConfig) (s : PVState) (port : Name)
    (v w : Nat) (hfound : lookupWidthLast cfg.inputs port = some w) :
    (s.autoEval = true →
      ∃ k tail, (writeDispatch cfg s port v).2.1 =
        List.replicate k (Ev.setCall port) ++ Ev.evalCall :: tail ∧ 1 ≤ k) ∧
    (s.autoEval = false →
      Ev.evalCall ∉ (writeDispatch cfg s port v).2.1) := by
  rw [writeDispatch_some cfg s port v w hfound]
  constructor
  · intro hae
    split_ifs with h64 h32
    · obtain ⟨t, ht⟩ := post_write_hook_eval_prefix
        { s with store := writeWordsStore s.store port ((w + 31) / 32) v }
        port hae
      refine ⟨(w + 31) / 32, t, ?_, by omega⟩
      simp only [write_words]
      rw [ht]
      simp [List.map_const', List.length_range]
    · obtain ⟨t, ht⟩ := post_write_hook_eval_prefix
        { s with store := write64Store s.store port v } port hae
      refine ⟨1, t, ?_, by omega⟩
      simp only [write_64]
      rw [ht]
      simp
    · obtain ⟨t, ht⟩ := post_write_hook_eval_prefix
        { s with store := write32Store s.store port v } port hae
      refine ⟨1, t, ?_, by omega⟩
      simp only [write_32]
      rw [ht]
      simp
  · intro hae
    split_ifs with h64 h32
    · simp only [write_words]
      intro hmem
      rcases List.mem_append.mp hmem with hm | hm
      · simp at hm
      · exact post_write_hook_no_eval _ port (by exact hae) hm
    · simp only [write_64]
      intro hmem
      rcases List.mem_cons.mp hmem with hm | hm
      · cases hm
      · exact post_write_hook_no_eval _ port (by exact hae) hm
    · simp only [write_32]
      intro hmem
      rcases List.mem_cons.mp hmem with hm | hm
      · cases hm
      · exact post_write_hook_no_eval _ port (by exact hae) hm

/-- Witness for C3: a write to an 8-bit input of an auto-eval instance. -/
theorem C3_witness :
    lookupWidthLast cfgW.inputs ['a'] = some 8 ∧ st0.autoEval = true ∧
    ∃ k tail, (writeDispatch cfgW st0 ['a'] 5).2.1 =
      List.replicate k (Ev.setCall ['a']) ++ Ev.evalCall :: tail ∧ 1 ≤ k :=
  ⟨rfl, rfl, (C3_write_auto_eval cfgW st0 ['a'] 5 8 rfl).1 rfl⟩

/-- C4 counterexample: the raw name `a__DOT__b` is built from the escape
grammar (two segments joined by the hierarchy separator, no reserved
markers), but decoding drops the leading top-module segment, so
re-escaping and re-joining the decoded path yields `b`, not the original
raw name. -/
theorem C4_counterexample :
    verilator_name_to_standard_modular_name
        (joinSep sepDOT ([['a'], ['b']].map encodeName)) = .ok [['b']] ∧
    joinSep sepDOT (([['b']] : List (List Char)).map encodeName) ≠
      joinSep sepDOT ([['a'], ['b']].map encodeName) :=
  ⟨rfl, by decide⟩

/-- C4 (amended): for every raw signal name built only from the escape
grammar of the decoder (segments joined by `__DOT__`, illegal characters
escaped as `__0` plus two hex digits, no reserved array-indexing markers),
decoding succeeds; when the name has a single segment the decoded path
re-escapes and re-joins to exactly the original raw name, and when it has
several segments the decoder drops the leading top-module segment, so
re-escaping and re-joining reproduces the original raw name minus its first
segment and the following separator. -/
theorem C4_amended_roundtrip (s0 : List Char) (rest : List (List Char))
    (hb : ∀ s ∈ s0 :: rest, ∀ c ∈ s, c.toNat < 256)
    (hbra : pyContains braMark
      (joinSep sepDOT ((s0 :: rest).map encodeName)) = false)
    (hket : pyContains ketMark
      (joinSep sepDOT ((s0 :: rest).map encodeName)) = false) :
    verilator_name_to_standard_modular_name
        (joinSep sepDOT ((s0 :: rest).map encodeName)) =
      .ok (if rest = [] then [s0] else rest) ∧
    (rest = [] →
      joinSep sepDOT (([s0] : List (List Char)).map encodeName) =
        joinSep sepDOT ((s0 :: rest).map encodeName)) ∧
    (rest ≠ [] →
      joinSep sepDOT ((s0 :: rest).map encodeName) =
        encodeName s0 ++ sepDOT ++ joinSep sepDOT (rest.map encodeName)) := by
  refine ⟨?_, ?_, ?_⟩
  · have h := decode_joinSep_encodeName (s0 :: rest) (by simp) hb hbra hket
    rcases rest with _ | ⟨r, rs⟩
    · simpa using h
    · simpa using h
  · intro h; subst h; rfl
  · intro h
    rcases rest with _ | ⟨r, rs⟩
    · exact absurd rfl h
    · rfl

/-- Witness for C4 (amended) on the concrete three-segment name
`top__DOT__sub__DOT__my__05Fsig`. -/
theorem C4_witness :
    (∀ s ∈ ["top".toList, "sub".toList, "my_sig".toList],
      ∀ c ∈ s, c.toNat < 256) ∧
    pyContains braMark (joinSep sepDOT
      (["top".toList, "sub".toList, "my_sig".toList].map encodeName)) =
        false ∧
    verilator_name_to_standard_modular_name
        (joinSep sepDOT
          (["top".toList, "sub".toList, "my_sig".toList].map encodeName)) =
      .ok ["sub".toList, "my_sig".toList] :=
  ⟨by decide, by decide, by
    have h := (C4_amended_roundtrip "top".toList
      ["sub".toList, "my_sig".toList] (by decide) (by decide) (by decide)).1
    simpa using h⟩

/-- C5 counterexample: `CLK1` is a 1-bit input whose short name
case-insensitively starts with the clock token `clk`, yet the scan binds no
clock, because the prefix pass of the code is case-sensitive. -/
theorem C5_counterexample :
    autodetectClock [{ sname := "CLK1".toList, isInput := true, width := 1 }]
        = .ok none ∧
    ("clk".toList).isPrefixOf (asciiLower ("CLK1".toList)) = true :=
  ⟨rfl, by decide⟩

/-- C5 (amended): clock auto-detection scans the io entries in three
priority passes, each taking its first match: case-insensitive equality
with `clock`/`clk`, then case-sensitive prefix, then case-sensitive suffix;
the first matching entry is bound, and it must be a 1-bit input, otherwise
an error is raised (the scan does not skip to a later entry); if no entry
matches, no clock is bound. -/
theorem C5_amended_clock_scan (entries : List IoEntry) :
    (∀ e, entries.find? clockEqPass = some e →
      autodetectClock entries = (mkClock e).map some) ∧
    (entries.find? clockEqPass = none →
      ∀ e, entries.find? clockStartPass = some e →
        autodetectClock entries = (mkClock e).map some) ∧
    (entries.find? clockEqPass = none →
      entries.find? clockStartPass = none →
      ∀ e, entries.find? clockEndPass = some e →
        autodetectClock entries = (mkClock e).map some) ∧
    (entries.find? clockEqPass = none →
      entries.find? clockStartPass = none →
      entries.find? clockEndPass = none →
      autodetectClock entries = .ok none) ∧
    (∀ e, autodetectClock entries = .ok (some e) →
      e.isInput = true ∧ e.width = 1 ∧ e ∈ entries ∧
        (clockEqPass e = true ∨ clockStartPass e = true ∨
          clockEndPass e = true)) := by
  refine ⟨?_, ?_, ?_, ?_, ?_⟩
  · intro e he; unfold autodetectClock; rw [he]
  · intro h1 e he; unfold autodetectClock; rw [h1, he]
  · intro h1 h2 e he; unfold autodetectClock; rw [h1, h2, he]
  · intro h1 h2 h3; unfold autodetectClock; rw [h1, h2, h3]
  · intro e he
    unfold autodetectClock at he
    rcases h1 : entries.find? clockEqPass with _ | e1
    · rcases h2 : entries.find? clockStartPass with _ | e2
      · rcases h3 : entries.find? clockEndPass with _ | e3
        · rw [h1, h2, h3] at he; cases he
        · rw [h1, h2, h3] at he
          obtain ⟨a, ha, hfa⟩ := exceptMap_some_ok _ _ _ he
          obtain rfl : a = e := Option.some_inj.mp hfa
          obtain ⟨rfl, hin, hwd⟩ := mkClock_ok a e3 ha
          exact ⟨hin, hwd, List.mem_of_find?_eq_some h3,
            Or.inr (Or.inr (List.find?_some h3))⟩
      · rw [h1, h2] at he
        obtain ⟨a, ha, hfa⟩ := exceptMap_some_ok _ _ _ he
        obtain rfl : a = e := Option.some_inj.mp hfa
        obtain ⟨rfl, hin, hwd⟩ := mkClock_ok a e2 ha
        exact ⟨hin, hwd, List.mem_of_find?_eq_some h2,
          Or.inr (Or.inl (List.find?_some h2))⟩
    · rw [h1] at he
      obtain ⟨a, ha, hfa⟩ := exceptMap_some_ok _ _ _ he
      obtain rfl : a = e := Option.some_inj.mp hfa
      obtain ⟨rfl, hin, hwd⟩ := mkClock_ok a e1 ha
      exact ⟨hin, hwd, List.mem_of_find?_eq_some h1,
        Or.inl (List.find?_some h1)⟩

/-- Witness for C5 (amended): a lone 1-bit input named `clk` is bound. -/
theorem C5_witness :
    autodetectClock [{ sname := "clk".toList, isInput := true, width := 1 }] =
      .ok (some { sname := "clk".toList, isInput := true, width := 1 }) ∧
    ({ sname := "clk".toList, isInput := true, width := 1 } : IoEntry).isInput
        = true ∧
    ({ sname := "clk".toList, isInput := true, width := 1 } : IoEntry).width
        = 1 :=
  ⟨rfl, by
    have h := (C5_amended_clock_scan
      [{ sname := "clk".toList, isInput := true, width := 1 }]).2.2.2.2
      { sname := "clk".toList, isInput := true, width := 1 } rfl
    exact h.1, by
    have h := (C5_amended_clock_scan
      [{ sname := "clk".toList, isInput := true, width := 1 }]).2.2.2.2
      { sname := "clk".toList, isInput := true, width := 1 } rfl
    exact h.2.1⟩

/-- C6: The trace lifecycle is a two-state machine: starting while a trace
is active raises the state-misuse `ValueError` with the instance state
unchanged; stopping while no trace is active likewise; and after
`start`, `stop`, `start` with a new filename the session accepts samples
again. -/
theorem C6_vcd_trace_state_machine (s : PVState) (f1 f2 : Name) (b : Bool) :
    (s.vcdTrace ≠ none →
      start_vcd_trace s f1 b = (s, [], some (PyErr.valueError
        ("start_vcd_trace() called while VCD tracing is already active".toList)))) ∧
    (s.vcdTrace = none →
      stop_vcd_trace s = (s, [], some (PyErr.valueError
        ("stop_vcd_trace() requires VCD tracing to be active".toList)))) ∧
    (s.vcdTrace = none →
      (start_vcd_trace s f1 true).2.2 = none ∧
      (stop_vcd_trace (start_vcd_trace s f1 true).1).2.2 = none ∧
      (start_vcd_trace
        (stop_vcd_trace (start_vcd_trace s f1 true).1).1 f2 true).2.2
          = none ∧
      (start_vcd_trace
        (stop_vcd_trace (start_vcd_trace s f1 true).1).1 f2 true).1.vcdFilename
          = some f2 ∧
      (add_to_vcd_trace (start_vcd_trace
        (stop_vcd_trace (start_vcd_trace s f1 true).1).1 f2 true).1).2.2
          = none) := by
  refine ⟨?_, ?_, ?_⟩
  · intro h
    rcases hv : s.vcdTrace with _ | t
    · exact absurd hv h
    · simp [start_vcd_trace, hv]
  · intro h
    simp [stop_vcd_trace, h]
  · intro h
    simp [start_vcd_trace, stop_vcd_trace, add_to_vcd_trace, h]

/-- Witness for C6 at a concrete instance state. -/
theorem C6_witness :
    (({ st0 with vcdTrace := some 1 } : PVState).vcdTrace ≠ none ∧
      start_vcd_trace { st0 with vcdTrace := some 1 } "t.vcd".toList true =
        ({ st0 with vcdTrace := some 1 }, [], some (PyErr.valueError
          ("start_vcd_trace() called while VCD tracing is already active".toList)))) ∧
    (st0.vcdTrace = none ∧
      (start_vcd_trace st0 "a.vcd".toList true).2.2 = none ∧
      (start_vcd_trace
        (stop_vcd_trace (start_vcd_trace st0 "a.vcd".toList true).1).1
        "b.vcd".toList true).1.vcdFilename = some ("b.vcd".toList)) :=
  ⟨⟨by decide,
    (C6_vcd_trace_state_machine { st0 with vcdTrace := some 1 }
      "t.vcd".toList "t.vcd".toList true).1 (by decide)⟩,
   ⟨rfl,
    ((C6_vcd_trace_state_machine st0 "a.vcd".toList "b.vcd".toList true).2.2
      rfl).1,
    (((C6_vcd_trace_state_machine st0 "a.vcd".toList "b.vcd".toList
      true).2.2 rfl).2.2).2.1⟩⟩

/-- C7 counterexample: writing the output-only name `o` raises exactly the
same `ValueError` (same class, same message) as writing a name absent from
every descriptor list, so the "not writable" error is not distinct from the
"no such signal" error. -/
theorem C7_counterexample :
    (writeDispatch cfgOutOnly st0 ['o'] 1).2.2 =
      (writeDispatch { inputs := [], outputs := [], internals := [] } st0
        ['o'] 1).2.2 ∧
    (writeDispatch cfgOutOnly st0 ['o'] 1).2.2 =
      some (PyErr.valueError (writeErrMsg ['o'])) :=
  ⟨rfl, rfl⟩

/-- C7 (amended): reading a name absent from the inputs, outputs and
internal-signals lists fails with the "does not exist" `ValueError`, and
writing any name without an input entry — whether absent everywhere or
existing only as an output — fails with the single
"does not exist (or it is an output)" `ValueError` (the code does not
distinguish the two cases); in every such failure no signal is modified,
no native call is made, and the instance state is unchanged. -/
theorem C7_unknown_name_errors (cfg : SigConfig) (s : PVState) (port : Name)
    (v : Nat) :
    (lookupWidthLast cfg.inputs port = none →
      writeDispatch cfg s port v =
        (s, [], some (PyErr.valueError (writeErrMsg port)))) ∧
    (lookupWidthLast (cfg.inputs ++ cfg.outputs ++ cfg.internals) port
        = none →
      readDispatch cfg s port = .error (PyErr.valueError (readErrMsg port))) := by
  constructor
  · intro h; unfold writeDispatch; rw [h]
  · intro h; unfold readDispatch; rw [h]

/-- Witness for C7 (amended): the output-only name `o` and the absent name
`z`. -/
theorem C7_witness :
    (lookupWidthLast cfgOutOnly.inputs ['o'] = none ∧
      writeDispatch cfgOutOnly st0 ['o'] 2 =
        (st0, [], some (PyErr.valueError (writeErrMsg ['o'])))) ∧
    (lookupWidthLast
        (cfgOutOnly.inputs ++ cfgOutOnly.outputs ++ cfgOutOnly.internals)
        ['z'] = none ∧
      readDispatch cfgOutOnly st0 ['z'] =
        .error (PyErr.valueError (readErrMsg ['z']))) :=
  ⟨⟨rfl, (C7_unknown_name_errors cfgOutOnly st0 ['o'] 2).1 rfl⟩,
   ⟨rfl, (C7_unknown_name_errors cfgOutOnly st0 ['z'] 0).2 rfl⟩⟩

/-- C8: A raw signal name containing either reserved array-indexing marker
(`__BRA__` or `__KET__`) makes the decoder raise the "not currently
supported" error and never return a decoded path; conversely the decoder
returns a path only for names containing neither marker. -/
theorem C8_reserved_marker_rejection (raw : Name) :
    ((pyContains braMark raw = true ∨ pyContains ketMark raw = true) →
      verilator_name_to_standard_modular_name raw =
        .error (.notImplementedError
          ("__BRA__ and __KET__ are not currently supported".toList))) ∧
    (∀ p, verilator_name_to_standard_modular_name raw = .ok p →
      pyContains braMark raw = false ∧ pyContains ketMark raw = false) := by
  constructor
  · intro h
    unfold verilator_name_to_standard_modular_name
    rcases h with h | h <;> simp [h]
  · intro p hp
    rcases hbra : pyContains braMark raw with _ | _
    · rcases hket : pyContains ketMark raw with _ | _
      · exact ⟨rfl, rfl⟩
      · unfold verilator_name_to_standard_modular_name at hp
        rw [hbra, hket] at hp
        simp at hp
    · unfold verilator_name_to_standard_modular_name at hp
      rw [hbra] at hp
      simp at hp

/-- Witness for C8 on the concrete name `a__BRA__3`. -/
theorem C8_witness :
    pyContains braMark ("a__BRA__3".toList) = true ∧
    verilator_name_to_standard_modular_name ("a__BRA__3".toList) =
      .error (.notImplementedError
        ("__BRA__ and __KET__ are not currently supported".toList)) :=
  ⟨by decide,
    (C8_reserved_marker_rejection ("a__BRA__3".toList)).1 (Or.inl (by decide))⟩

/-- C9 counterexample: on a fully constructed instance the first
destruction releases the model, but a second explicit destruction raises an
`AttributeError` (the `lib` attribute was deleted), contradicting "never
fails"; it does not, however, release the model again. -/
theorem C9_counterexample :
    delStep { model := some 1, lib := .present (some 2) } =
      ({ model := some 1, lib := .deleted }, [Ev.destructCall 1], none) ∧
    delStep (delStep { model := some 1, lib := .present (some 2) }).1 =
      ({ model := some 1, lib := .deleted }, [], some PyErr.attributeError) :=
  ⟨rfl, rfl⟩

/-- C9 (amended): destruction never releases the native model more than
once — a second destruction performs no release call at all, whatever the
instance state; destruction of an instance whose construction failed before
the library was acquired succeeds and is idempotent; and the first
destruction of a fully constructed instance releases the model exactly
once.  However, a second explicit destruction after the library handle was
acquired raises an `AttributeError` rather than succeeding silently. -/
theorem C9_amended_destruction (st : InstAttrs) (m l : Nat) :
    (delStep (delStep st).1).2.1 = [] ∧
    delStep { model := none, lib := .present none } =
      ({ model := none, lib := .present none }, [], none) ∧
    delStep { model := some m, lib := .present (some l) } =
      ({ model := some m, lib := .deleted }, [Ev.destructCall m], none) ∧
    delStep (delStep { model := some m, lib := .present (some l) }).1 =
      ({ model := some m, lib := .deleted }, [], some PyErr.attributeError) := by
  refine ⟨?_, rfl, rfl, rfl⟩
  rcases st with ⟨mo, li⟩
  rcases mo with _ | m2 <;> rcases li with o | _
  · rcases o with _ | l2 <;> rfl
  · rfl
  · rcases o with _ | l2 <;> rfl
  · rfl

/-- C10: Immediately after construction, `_sim_init` has written the value
0 to every input listed in the descriptor lists (evaluating after each
write when auto-eval is on), no error is raised, and every input reads back
as 0 before the caller performs any write. -/
theorem C10_sim_init_zero (cfg : SigConfig) (s : PVState)
    (hnodup : ((cfg.inputs ++ cfg.outputs ++ cfg.internals).map
      Prod.fst).Nodup)
    (hmode : s.autoTracingMode = none) :
    (sim_init cfg s).2.2 = none ∧
    ∀ p w, (p, w) ∈ cfg.inputs →
      readDispatch cfg (sim_init cfg s).1 p = .ok 0 := by
  rw [List.map_append, List.map_append] at hnodup
  have hnodupIn : (cfg.inputs.map Prod.fst).Nodup :=
    (hnodup.of_append_left).of_append_left
  have hdisj : (cfg.inputs.map Prod.fst).Disjoint
      ((cfg.outputs.map Prod.fst) ++ (cfg.internals.map Prod.fst)) := by
    have h' : ((cfg.inputs.map Prod.fst) ++
        ((cfg.outputs.map Prod.fst) ++ (cfg.internals.map Prod.fst))).Nodup := by
      rw [← List.append_assoc]
      exact hnodup
    exact (List.nodup_append.mp h').2.2
  have hnames : ∀ n ∈ cfg.inputs.map Prod.fst,
      ∃ w, lookupWidthLast cfg.inputs n = some w := by
    intro n hn
    rcases hl : lookupWidthLast cfg.inputs n with _ | w
    · exact absurd hn ((lookupWidthLast_eq_none_iff _ _).mp hl)
    · exact ⟨w, rfl⟩
  obtain ⟨he, hm, hother, hzero⟩ :=
    simInitGo_spec cfg (cfg.inputs.map Prod.fst) s hmode hnames
  refine ⟨he, ?_⟩
  intro p w hpw
  have hpin : p ∈ cfg.inputs.map Prod.fst :=
    List.mem_map.mpr ⟨(p, w), hpw, rfl⟩
  have hlookIn : lookupWidthLast cfg.inputs p = some w :=
    lookupWidthLast_of_mem_nodup p w cfg.inputs hpw hnodupIn
  have hnotRest : p ∉ (cfg.outputs ++ cfg.internals).map Prod.fst := by
    rw [List.map_append]
    exact fun hmem => hdisj hpin hmem
  have hlookAll : lookupWidthLast
      (cfg.inputs ++ cfg.outputs ++ cfg.internals) p = some w := by
    rw [List.append_assoc, lookupWidthLast_append p _ _ hnotRest]
    exact hlookIn
  have hz := hzero p w hpin hlookIn
  rw [readDispatch_some cfg (sim_init cfg s).1 p w hlookAll]
  unfold tierRead at hz
  split_ifs at hz ⊢ <;> exact congrArg Except.ok hz

/-- Witness for C10 on a concrete configuration with an 8-bit and a
100-bit input. -/
theorem C10_witness :
    ((cfgW.inputs ++ cfgW.outputs ++ cfgW.internals).map Prod.fst).Nodup ∧
    st0.autoTracingMode = none ∧
    (sim_init cfgW st0).2.2 = none ∧
    readDispatch cfgW (sim_init cfgW st0).1 ['b'] = .ok 0 :=
  ⟨by decide, rfl, (C10_sim_init_zero cfgW st0 (by decide) rfl).1,
    (C10_sim_init_zero cfgW st0 (by decide) rfl).2 ['b'] 100 (by decide)⟩

end PyV

